import Mathlib

/-!
Verification of the martini request-dispatch core (router, execution
pipeline, response wrapper, return-value interpreter) against its
natural-language specification.

The Go sources are shallowly embedded: each Lean definition mirrors one
Go function of the repository (`response_writer.go`, `router.go`,
`martini.go`, and the return-handler file).  Machine integers are
modelled as `Int`/`Nat` (no overflow is relevant to any claim), byte
slices as `List Nat`, and the underlying `http.ResponseWriter` sink as
an event trace recorded inside the wrapper state.
-/

namespace Martini

/-- Events forwarded to the underlying response sink, plus before-hook
invocations.  `header s` is `ResponseWriter.WriteHeader(s)` reaching the
wrapped sink, `bytes b` is a body write reaching the wrapped sink, and
`hook i` is the invocation of the before-hook registered with identity
`i` (hooks are modelled by their invocation events). -/
inductive WEv where
  | hook (i : Nat)
  | header (s : Int)
  | bytes (b : List Nat)
deriving DecidableEq, Repr

/-- State of `responseWriter` (response_writer.go): wrapped sink
(modelled as the `events` trace), status code (0 = unset), cumulative
size, and the registered before-hooks in registration order. -/
structure RespW where
  status : Int
  size : Nat
  hooks : List Nat
  events : List WEv
deriving DecidableEq, Repr

/-- A fresh wrapper, as built by `NewResponseWriter`: status 0, size 0,
no hooks. -/
def freshRW : RespW := ⟨0, 0, [], []⟩

/-- `responseWriter.Written`: the response has been written iff the
recorded status is non-zero. -/
def RespW.Written (rw : RespW) : Bool := rw.status != 0

/-- `responseWriter.callBefore`: invoke every registered before-hook,
most recently registered first. -/
def RespW.callBefore (rw : RespW) : RespW :=
  { rw with events := rw.events ++ rw.hooks.reverse.map WEv.hook }

/-- `responseWriter.WriteHeader`: run the before-hooks, forward the
status to the wrapped sink, then record it. -/
def RespW.writeHeader (s : Int) (rw : RespW) : RespW :=
  let rw1 := rw.callBefore
  { rw1 with events := rw1.events ++ [WEv.header s], status := s }

/-- `responseWriter.Write`: if nothing has been written yet, first
`WriteHeader(http.StatusOK)`; then forward the bytes to the wrapped
sink and accumulate the size. -/
def RespW.write (b : List Nat) (rw : RespW) : RespW :=
  let rw1 := if rw.Written then rw else rw.writeHeader 200
  { rw1 with events := rw1.events ++ [WEv.bytes b], size := rw1.size + b.length }

/-- `responseWriter.Before`: append a hook to the hook list. -/
def RespW.before (i : Nat) (rw : RespW) : RespW :=
  { rw with hooks := rw.hooks ++ [i] }

/-- An operation performed on the response wrapper by handler code. -/
inductive WOp where
  | opBefore (i : Nat)
  | opWriteHeader (s : Int)
  | opWrite (b : List Nat)
deriving DecidableEq, Repr

/-- Run one wrapper operation. -/
def runWOp (rw : RespW) : WOp → RespW
  | .opBefore i => rw.before i
  | .opWriteHeader s => rw.writeHeader s
  | .opWrite b => rw.write b

/-- Run a sequence of wrapper operations. -/
def runWOps (ops : List WOp) (rw : RespW) : RespW :=
  ops.foldl runWOp rw

/-- The hook events fired by one `callBefore` pass over the currently
registered hooks (most recently registered first). -/
def hookEvs (rw : RespW) : List WEv := rw.hooks.reverse.map WEv.hook

theorem runWOps_nil (rw : RespW) : runWOps [] rw = rw := rfl

theorem runWOps_cons (op : WOp) (ops : List WOp) (rw : RespW) :
    runWOps (op :: ops) rw = runWOps ops (runWOp rw op) := rfl

theorem write_of_unwritten (b : List Nat) (rw : RespW) (h : rw.status = 0) :
    (rw.write b).status = 200 ∧
    (rw.write b).size = rw.size + b.length ∧
    (rw.write b).events
      = rw.events ++ hookEvs rw ++ [WEv.header 200, WEv.bytes b] := by
  simp [RespW.write, RespW.Written, RespW.writeHeader, RespW.callBefore, hookEvs, h]

theorem write_of_written (b : List Nat) (rw : RespW) (h : rw.status ≠ 0) :
    (rw.write b).status = rw.status ∧
    (rw.write b).size = rw.size + b.length ∧
    (rw.write b).events = rw.events ++ [WEv.bytes b] := by
  simp [RespW.write, RespW.Written, h]

theorem writeHeader_events (s : Int) (rw : RespW) :
    (rw.writeHeader s).events = rw.events ++ hookEvs rw ++ [WEv.header s] ∧
    (rw.writeHeader s).status = s := by
  simp [RespW.writeHeader, RespW.callBefore, hookEvs]

/-- Registering hooks only populates the hook list. -/
theorem runWOps_before (ids : List Nat) (rw : RespW) :
    runWOps (ids.map WOp.opBefore) rw
      = { rw with hooks := rw.hooks ++ ids } := by
  induction ids generalizing rw with
  | nil => simp [runWOps_nil]
  | cons i is ih =>
      simp only [List.map_cons, runWOps_cons, runWOp, RespW.before, ih,
        List.append_assoc, List.singleton_append]

/-- C5 counterexample: registering one before-hook and then calling
`WriteHeader` twice runs the hook twice — `callBefore` is invoked on
every `WriteHeader` call, with no once-per-response guard — refuting
"each registered before-hook runs exactly once per response … even when
WriteHeader is invoked more than once". -/
theorem C5_hook_runs_twice_on_double_writeHeader :
    (runWOps [WOp.opBefore 0, WOp.opWriteHeader 200, WOp.opWriteHeader 500]
        freshRW).events
      = [WEv.hook 0, WEv.header 200, WEv.hook 0, WEv.header 500] ∧
    ((runWOps [WOp.opBefore 0, WOp.opWriteHeader 200, WOp.opWriteHeader 500]
        freshRW).events.count (WEv.hook 0) = 2) := by
  constructor <;> rfl

/-- C5 (amended): every `WriteHeader` call runs all currently registered
before-hooks, most recently registered first, before the status reaches
the underlying sink; consequently, for a response whose status is set
exactly once (here: implicitly by the first body write), each registered
hook runs exactly once, in reverse registration order, before the first
status or byte reaches the sink.  (Hooks re-run if `WriteHeader` is
called again, see the counterexample.) -/
theorem C5_hooks_reverse_before_status :
    (∀ (rw : RespW) (s : Int),
       (rw.writeHeader s).events
         = rw.events ++ hookEvs rw ++ [WEv.header s]) ∧
    (∀ (ids : List Nat) (b : List Nat),
       (runWOps (ids.map WOp.opBefore ++ [WOp.opWrite b]) freshRW).events
         = ids.reverse.map WEv.hook ++ [WEv.header 200, WEv.bytes b]) := by
  constructor
  · intro rw s
    exact (writeHeader_events s rw).1
  · intro ids b
    have hsplit : runWOps (ids.map WOp.opBefore ++ [WOp.opWrite b]) freshRW
        = runWOps [WOp.opWrite b] (runWOps (ids.map WOp.opBefore) freshRW) := by
      simp [runWOps, List.foldl_append]
    rw [hsplit, runWOps_before]
    simp [runWOps, runWOp, RespW.write, RespW.Written, RespW.writeHeader,
      RespW.callBefore, hookEvs, freshRW]

/-- C6: the first `Write` with status unset implicitly sets status 200
before the body bytes reach the sink; a `Write` on an already-written
response leaves the recorded status unchanged and only increases the
byte count; `Written()` is true after any `Write` and after any
`WriteHeader` with a non-zero code, and remains true under every
subsequent operation (status codes are non-zero for every operation
that the underlying sink accepts). -/
theorem C6_write_status_idempotent :
    (∀ (b : List Nat) (rw : RespW), rw.status = 0 →
       (rw.write b).status = 200 ∧
       (rw.write b).size = rw.size + b.length ∧
       (rw.write b).events
         = rw.events ++ hookEvs rw ++ [WEv.header 200, WEv.bytes b]) ∧
    (∀ (b : List Nat) (rw : RespW), rw.status ≠ 0 →
       (rw.write b).status = rw.status ∧
       (rw.write b).size = rw.size + b.length) ∧
    (∀ (b : List Nat) (rw : RespW), (rw.write b).Written = true) ∧
    (∀ (s : Int) (rw : RespW), s ≠ 0 → (rw.writeHeader s).Written = true) ∧
    (∀ (ops : List WOp) (rw : RespW),
       (∀ s, WOp.opWriteHeader s ∈ ops → s ≠ 0) →
       rw.Written = true → (runWOps ops rw).Written = true) := by
  refine ⟨?_, ?_, ?_, ?_, ?_⟩
  · intro b rw h
    exact write_of_unwritten b rw h
  · intro b rw h
    exact ⟨(write_of_written b rw h).1, (write_of_written b rw h).2.1⟩
  · intro b rw
    by_cases h : rw.status = 0
    · simp [RespW.write, RespW.Written, RespW.writeHeader, RespW.callBefore, h]
    · simp [RespW.write, RespW.Written, h]
  · intro s rw h
    simp [RespW.writeHeader, RespW.Written, RespW.callBefore, h]
  · intro ops
    induction ops with
    | nil => intro rw _ h; simpa [runWOps_nil] using h
    | cons op ops ih =>
        intro rw hcodes h
        rw [runWOps_cons]
        refine ih (runWOp rw op) (fun s hs => hcodes s (List.mem_cons_of_mem _ hs)) ?_
        cases op with
        | opBefore i => simpa [runWOp, RespW.before, RespW.Written] using h
        | opWriteHeader s =>
            have : s ≠ 0 := hcodes s (List.mem_cons_self _ _)
            simp [runWOp, RespW.writeHeader, RespW.callBefore, RespW.Written, this]
        | opWrite b =>
            by_cases h0 : rw.status = 0
            · simp [RespW.Written, h0] at h
            · simp [runWOp, RespW.write, RespW.Written, h0]

/-- Witness for C6 at a concrete input. -/
theorem C6_write_status_idempotent_witness :
    (freshRW.write [7]).status = 200 ∧
    (freshRW.write [7]).size = freshRW.size + [7].length ∧
    (freshRW.write [7]).events
      = freshRW.events ++ hookEvs freshRW ++ [WEv.header 200, WEv.bytes [7]] :=
  C6_write_status_idempotent.1 [7] freshRW rfl

/-! ## Return-value interpreter (`defaultReturnHandler`)

A handler's return values are `reflect.Value`s.  The kinds that the
interpreter distinguishes are modelled by `RVal`: `int` (Go kind
`reflect.Int`), `str` (kind `String`), `bytes` (a `[]byte` slice),
`ptr` (a pointer or interface wrapper, the `canDeref` kinds), and
`invalid` (the zero `reflect.Value`).  `reflect.Value.String()` on a
non-string kind returns the placeholder `"<T Value>"`; strings are
written as their character codes. -/

inductive RVal where
  | int (n : Int)
  | str (s : String)
  | bytes (b : List Nat)
  | ptr (v : RVal)
  | invalid
deriving DecidableEq, Repr

/-- The bytes of a string, as written by `res.Write([]byte(s))`. -/
def strBytes (s : String) : List Nat := s.data.map Char.toNat

/-- `reflect.Value.String()`: the string itself for kind `String`, the
`"<T Value>"` placeholder otherwise. -/
def RVal.string : RVal → String
  | .str s => s
  | .int _ => "<int Value>"
  | .bytes _ => "<[]uint8 Value>"
  | .ptr _ => "<ptr Value>"
  | .invalid => "<invalid Value>"

/-- `isByteSlice`: the value is a slice with `uint8` elements. -/
def isByteSlice : RVal → Bool
  | .bytes _ => true
  | _ => false

/-- `canDeref`: the value's kind is `Interface` or `Ptr`. -/
def canDeref : RVal → Bool
  | .ptr _ => true
  | _ => false

/-- `reflect.Value.Elem()` for the `canDeref` kinds. -/
def RVal.elem : RVal → RVal
  | .ptr v => v
  | v => v

/-- Whether the value's kind is `reflect.Int`. -/
def isIntKind : RVal → Bool
  | .int _ => true
  | _ => false

/-- The integer of an `int`-kinded value (`reflect.Value.Int()`). -/
def RVal.intVal : RVal → Int
  | .int n => n
  | _ => 0

/-- The byte contents of a byte-slice value (`reflect.Value.Bytes()`). -/
def RVal.bytesVal : RVal → List Nat
  | .bytes b => b
  | _ => []

/-- `defaultReturnHandler`: with more than one value whose first is
`int`-kinded, write the first as the status and take the second as the
response value; otherwise take the first value (if any); dereference
one pointer/interface level; then write raw bytes for a byte slice and
the textual representation otherwise. -/
def defaultReturnHandler (rw : RespW) (vals : List RVal) : RespW :=
  let p : RespW × RVal :=
    if 1 < vals.length ∧ isIntKind (vals.getD 0 .invalid) then
      (rw.writeHeader (vals.getD 0 .invalid).intVal, vals.getD 1 .invalid)
    else if 0 < vals.length then (rw, vals.getD 0 .invalid)
    else (rw, .invalid)
  let responseVal := if canDeref p.2 then p.2.elem else p.2
  if isByteSlice responseVal then p.1.write responseVal.bytesVal
  else p.1.write (strBytes responseVal.string)

/-- Modelled from the spec: the body that §4.4's one-value rule
prescribes for a value — unwrap one dereferenceable level, then raw
bytes for a byte-sequence value and the textual representation
otherwise.  Used as the reference against which the embedded
`defaultReturnHandler` is compared. -/
def specValueBody (v : RVal) : List Nat :=
  if isByteSlice (if canDeref v then v.elem else v) then
    (if canDeref v then v.elem else v).bytesVal
  else strBytes (if canDeref v then v.elem else v).string

/-- The interpreter with two values whose first is `int`-kinded writes
that integer as the status and then the second value's body. -/
theorem dRH_two_int (rw : RespW) (n : Int) (v : RVal) :
    defaultReturnHandler rw [RVal.int n, v]
      = (rw.writeHeader n).write (specValueBody v) := by
  by_cases h : isByteSlice (if canDeref v then v.elem else v) = true <;>
    simp [defaultReturnHandler, specValueBody, isIntKind, RVal.intVal, h]

/-- The interpreter with a single value writes that value's body. -/
theorem dRH_one (rw : RespW) (v : RVal) :
    defaultReturnHandler rw [v] = rw.write (specValueBody v) := by
  by_cases h : isByteSlice (if canDeref v then v.elem else v) = true <;>
    simp [defaultReturnHandler, specValueBody, h]

/-- With a non-`int`-kinded first value, all further values are ignored
and the first value's body is written. -/
theorem dRH_discard (rw : RespW) (v w : RVal) (rest : List RVal)
    (hv : isIntKind v = false) :
    defaultReturnHandler rw (v :: w :: rest) = rw.write (specValueBody v) := by
  by_cases h : isByteSlice (if canDeref v then v.elem else v) = true <;>
    simp [defaultReturnHandler, specValueBody, hv, h]

/-- C7: on a fresh response, two return values whose first is
`int`-kinded make the interpreter write the first as the status and the
second per the value rule (one dereference level, raw bytes for a byte
slice, textual representation otherwise); a single return value is
written per the same rule with the implicit status 200; in both cases
exactly one status and one body reach the sink. -/
theorem C7_default_return_handler :
    (∀ (rw : RespW) (n : Int) (v : RVal), rw.status = 0 → n ≠ 0 →
       (defaultReturnHandler rw [RVal.int n, v]).status = n ∧
       (defaultReturnHandler rw [RVal.int n, v]).events
         = rw.events ++ hookEvs rw
             ++ [WEv.header n, WEv.bytes (specValueBody v)]) ∧
    (∀ (rw : RespW) (v : RVal), rw.status = 0 →
       (defaultReturnHandler rw [v]).status = 200 ∧
       (defaultReturnHandler rw [v]).events
         = rw.events ++ hookEvs rw
             ++ [WEv.header 200, WEv.bytes (specValueBody v)]) := by
  constructor
  · intro rw n v h0 hn
    rw [dRH_two_int]
    have hw : (rw.writeHeader n).status ≠ 0 := by
      simpa [RespW.writeHeader, RespW.callBefore] using hn
    obtain ⟨hst, _, hev⟩ := write_of_written (specValueBody v) (rw.writeHeader n) hw
    refine ⟨?_, ?_⟩
    · rw [hst]; simp [RespW.writeHeader, RespW.callBefore]
    · rw [hev, (writeHeader_events n rw).1]; simp
  · intro rw v h0
    rw [dRH_one]
    obtain ⟨hst, _, hev⟩ := write_of_unwritten (specValueBody v) rw h0
    exact ⟨hst, hev⟩

/-- Witness for C7 at a concrete input. -/
theorem C7_default_return_handler_witness :
    (defaultReturnHandler freshRW [RVal.int 201, RVal.str "hi"]).status = 201 ∧
    (defaultReturnHandler freshRW [RVal.int 201, RVal.str "hi"]).events
      = freshRW.events ++ hookEvs freshRW
          ++ [WEv.header 201, WEv.bytes (specValueBody (RVal.str "hi"))] :=
  C7_default_return_handler.1 freshRW 201 (RVal.str "hi") rfl (by decide)

/-- C10 (implicit): when the first of several return values is not
`int`-kinded, the interpreter behaves exactly as if only the first value
had been returned — the remaining values (e.g. an `error` alongside a
`string`) are silently discarded, and no explicit status is set (the
status is the implicit 200 of the body write). -/
theorem C10_non_int_first_discards_rest :
    (∀ (rw : RespW) (v w : RVal) (rest : List RVal), isIntKind v = false →
       defaultReturnHandler rw (v :: w :: rest) = defaultReturnHandler rw [v]) ∧
    (∀ (rw : RespW) (v w : RVal) (rest : List RVal),
       isIntKind v = false → rw.status = 0 →
       (defaultReturnHandler rw (v :: w :: rest)).status = 200 ∧
       (defaultReturnHandler rw (v :: w :: rest)).events
         = rw.events ++ hookEvs rw
             ++ [WEv.header 200, WEv.bytes (specValueBody v)]) := by
  have key : ∀ (rw : RespW) (v w : RVal) (rest : List RVal),
      isIntKind v = false →
      defaultReturnHandler rw (v :: w :: rest) = defaultReturnHandler rw [v] := by
    intro rw v w rest hv
    rw [dRH_discard rw v w rest hv, dRH_one]
  refine ⟨key, ?_⟩
  intro rw v w rest hv h0
  rw [key rw v w rest hv, dRH_one]
  obtain ⟨hst, _, hev⟩ := write_of_unwritten (specValueBody v) rw h0
  exact ⟨hst, hev⟩

/-- Witness for C10 at a concrete input. -/
theorem C10_non_int_first_discards_rest_witness :
    defaultReturnHandler freshRW [RVal.str "ok", RVal.str "boom"]
      = defaultReturnHandler freshRW [RVal.str "ok"] :=
  C10_non_int_first_discards_rest.1 freshRW (RVal.str "ok") (RVal.str "boom")
    [] rfl

/-! ## Route table and matcher (router.go)

`newRoute` compiles a pattern by replacing each `:name` token (regex
`:[^/#?()\.\\]+`) with the named group `(?P<name>[^/#?]+)`, each `**`
with the auto-numbered group `(?P<_N>[^#?]*)`, and appending `\/?`;
`route.Match` then requires the leftmost-first regex match to equal the
whole path.  The compiled regex is embedded as a token list (`Tok`) of
literal characters, named one-or-more captures and numbered
zero-or-more captures; ordinary pattern characters are modelled as
exact-match literals (faithful for patterns without regex
metacharacters, which covers every pattern whose two replacements do
not interact).  `runToks` is the backtracking matcher with greedy
preference, i.e. the leftmost-first submatch semantics of Go's
`regexp` package, and the trailing `\/?` is applied to the remainder
afterwards. -/

/-- One element of a compiled route pattern. -/
inductive Tok where
  | lit (c : Char)
  | param (name : String)
  | wild (i : Nat)
deriving DecidableEq, Repr

/-- Characters admitted by a `:name` capture: `[^/#?]`. -/
def paramOk (c : Char) : Bool := !(c = '/' || c = '#' || c = '?')

/-- Characters admitted by a `**` capture: `[^#?]`. -/
def wildOk (c : Char) : Bool := !(c = '#' || c = '?')

/-- Characters admitted in a `:name` parameter name:
`[^/#?()\.\\]`. -/
def nameOk (c : Char) : Bool :=
  !(c = '/' || c = '#' || c = '?' || c = '(' || c = ')' || c = '.' || c = '\\')

/-- Compile a pattern string to tokens (the replacement pass of
`newRoute`): `:name` becomes a named capture, `**` a numbered capture
(numbered from 1 in occurrence order), anything else a literal.  The
first argument is structural fuel; every step consumes at least one
character, so the input length bounds the number of steps. -/
def compileAux : Nat → List Char → Nat → List Tok
  | 0, _, _ => []
  | _, [], _ => []
  | fuel + 1, ':' :: rest, idx =>
      let run := rest.takeWhile nameOk
      if run.isEmpty then Tok.lit ':' :: compileAux fuel rest idx
      else Tok.param (String.mk run) :: compileAux fuel (rest.drop run.length) idx
  | fuel + 1, '*' :: '*' :: rest, idx =>
      Tok.wild (idx + 1) :: compileAux fuel rest (idx + 1)
  | fuel + 1, c :: rest, idx => Tok.lit c :: compileAux fuel rest idx

/-- The compiled matcher of `newRoute` (before the trailing `\/?`). -/
def compilePattern (pattern : String) : List Tok :=
  compileAux pattern.data.length pattern.data 0

/-- Greedy candidate lengths `hi, hi-1, …, lo`. -/
def greedyLens (hi lo : Nat) : List Nat :=
  (List.range (hi + 1 - lo)).map (fun j => hi - j)

/-- Backtracking matcher with greedy preference: returns the
leftmost-first match of the token sequence at position 0 of the input —
the submatch bindings in group order together with the unconsumed
remainder. -/
def runToks : List Tok → List Char → Option (List (String × String) × List Char)
  | [], cs => some ([], cs)
  | .lit _ :: _, [] => none
  | .lit c :: ts, x :: cs => if x = c then runToks ts cs else none
  | .param name :: ts, cs =>
      (greedyLens (cs.takeWhile paramOk).length 1).findSome? fun k =>
        (runToks ts (cs.drop k)).map fun br =>
          ((name, String.mk (cs.take k)) :: br.1, br.2)
  | .wild i :: ts, cs =>
      (greedyLens (cs.takeWhile wildOk).length 0).findSome? fun k =>
        (runToks ts (cs.drop k)).map fun br =>
          (("_" ++ toString i, String.mk (cs.take k)) :: br.1, br.2)

/-- A registered route: method, original pattern, optional name.  (The
handler chain is not needed for the matching claims.) -/
structure RouteRec where
  method : String
  pattern : String
  name : String
deriving DecidableEq, Repr

/-- `route.MatchMethod`: wildcard method matches everything, otherwise
the methods must be equal, except that a GET route also accepts
HEAD. -/
def RouteRec.MatchMethod (r : RouteRec) (method : String) : Bool :=
  r.method == "*" || method == r.method || (method == "HEAD" && r.method == "GET")

/-- `route.Match`: method check, then the compiled pattern must match
the whole path (`matches[0] == path`), with the trailing `\/?`
tolerating one final slash; on success the named captures are
returned in group order. -/
def RouteRec.Match (r : RouteRec) (method path : String) :
    Option (List (String × String)) :=
  if r.MatchMethod method then
    match runToks (compilePattern r.pattern) path.data with
    | some (binds, rest) =>
        let rest2 := match rest with
          | '/' :: t => t
          | t => t
        if rest2 = [] then some binds else none
    | none => none
  else none

/-- `router.Handle`'s dispatch loop: try the routes in registration
order and return the index of the first one whose `Match` succeeds
together with its parameter bindings (`none` = fall through to the
not-found chain). -/
def handle (routes : List RouteRec) (method path : String) :
    Option (Nat × List (String × String)) :=
  match routes with
  | [] => none
  | r :: rs =>
      match r.Match method path with
      | some binds => some (0, binds)
      | none => (handle rs method path).map fun ib => (ib.1 + 1, ib.2)

theorem takeWhile_eq_self_of_all {α : Type} {p : α → Bool} :
    ∀ {l : List α}, (∀ a ∈ l, p a = true) → l.takeWhile p = l := by
  intro l
  induction l with
  | nil => intro _; rfl
  | cons a l ih =>
      intro h
      have ha : p a = true := h a (List.mem_cons_self a l)
      simp only [List.takeWhile_cons, ha, if_true]
      rw [ih fun b hb => h b (List.mem_cons_of_mem a hb)]

theorem findSome?_cons_of_some {α β : Type} (f : α → Option β) (a : α)
    (l : List α) (b : β) (h : f a = some b) : (a :: l).findSome? f = some b := by
  simp [List.findSome?_cons, h]

/-- Matching literal tokens consumes exactly the corresponding
characters. -/
theorem runToks_lit_append (l : List Char) (ts : List Tok) (cs : List Char) :
    runToks (l.map Tok.lit ++ ts) (l ++ cs) = runToks ts cs := by
  induction l with
  | nil => rfl
  | cons c l ih => simp [runToks, ih]

/-- A final `:name` capture greedily consumes a non-empty remainder all
of whose characters are admissible, binding the whole remainder. -/
theorem runToks_param_final (name : String) (cs : List Char) (hne : cs ≠ [])
    (hall : ∀ c ∈ cs, paramOk c = true) :
    runToks [Tok.param name] cs = some ([(name, String.mk cs)], []) := by
  have htw : cs.takeWhile paramOk = cs := takeWhile_eq_self_of_all hall
  obtain ⟨n, hn⟩ : ∃ n, cs.length = n + 1 := by
    cases cs with
    | nil => exact absurd rfl hne
    | cons a l => exact ⟨l.length, rfl⟩
  have hgl : greedyLens (cs.takeWhile paramOk).length 1
      = cs.length :: (List.range n).map (fun j => n - j) := by
    rw [htw, hn]
    simp only [greedyLens, Nat.add_sub_cancel, List.range_succ_eq_map]
    simp [List.map_map, Function.comp, Nat.succ_sub_succ]
  show (greedyLens (cs.takeWhile paramOk).length 1).findSome? _ = _
  rw [hgl]
  refine findSome?_cons_of_some _ _ _ _ ?_
  rw [List.drop_length, List.take_length]
  rfl

/-- C2: pattern `/user/:id` matches `/user/42` binding `id` to exactly
`"42"` but does not match `/user/42/extra`; pattern `/files/**` matches
`/files/a/b/c` capturing `a/b/c` (as the auto-numbered parameter `_1`);
generally, the `:id` capture matches any non-empty string of characters
excluding `/`, `#`, `?` and binds exactly that substring. -/
theorem C2_pattern_matching :
    (RouteRec.Match ⟨"GET", "/user/:id", ""⟩ "GET" "/user/42"
       = some [("id", "42")]) ∧
    (RouteRec.Match ⟨"GET", "/user/:id", ""⟩ "GET" "/user/42/extra" = none) ∧
    (RouteRec.Match ⟨"GET", "/files/**", ""⟩ "GET" "/files/a/b/c"
       = some [("_1", "a/b/c")]) ∧
    (∀ s : String, s ≠ "" → (∀ c ∈ s.data, paramOk c = true) →
       RouteRec.Match ⟨"GET", "/user/:id", ""⟩ "GET" ("/user/" ++ s)
         = some [("id", s)]) := by
  refine ⟨by decide, by decide, by decide, ?_⟩
  intro s h1 h2
  obtain ⟨cs⟩ := s
  have hne : cs ≠ [] := by
    intro h
    exact h1 (by rw [h])
  have hdata : ("/user/" ++ String.mk cs).data = "/user/".data ++ cs := rfl
  have hcomp : compilePattern "/user/:id"
      = "/user/".data.map Tok.lit ++ [Tok.param "id"] := by decide
  show RouteRec.Match _ "GET" _ = _
  simp only [RouteRec.Match]
  rw [if_pos (by decide : RouteRec.MatchMethod ⟨"GET", "/user/:id", ""⟩ "GET" = true)]
  rw [hdata, hcomp, runToks_lit_append,
    runToks_param_final "id" cs hne (by simpa using h2)]
  rfl

/-- Witness for C2's generic conjunct at a concrete input. -/
theorem C2_pattern_matching_witness :
    RouteRec.Match ⟨"GET", "/user/:id", ""⟩ "GET" ("/user/" ++ "zz")
      = some [("id", "zz")] :=
  C2_pattern_matching.2.2.2 "zz" (by decide) (by decide)

/-- The dispatch loop selects exactly the first route (in registration
order) whose `Match` succeeds, returning its index and bindings. -/
theorem handle_eq_some_iff (method path : String) :
    ∀ (routes : List RouteRec) (i : Nat) (binds : List (String × String)),
      handle routes method path = some (i, binds) ↔
        ((∃ r, routes[i]? = some r ∧ r.Match method path = some binds) ∧
         ∀ j, j < i → ∀ r, routes[j]? = some r →
           r.Match method path = none) := by
  intro routes
  induction routes with
  | nil =>
      intro i binds
      simp [handle]
  | cons r rs ih =>
      intro i binds
      cases hm : r.Match method path with
      | some b0 =>
          simp only [handle, hm]
          constructor
          · intro h
            have h2 : 0 = i ∧ b0 = binds := by
              have := Option.some.inj h
              exact ⟨congrArg Prod.fst this, congrArg Prod.snd this⟩
            have hi : i = 0 := h2.1.symm
            have hb : binds = b0 := h2.2.symm
            subst hi
            subst hb
            refine ⟨⟨r, by simp, hm⟩, ?_⟩
            intro j hj
            omega
          · rintro ⟨⟨r', hr', hm'⟩, hearly⟩
            cases i with
            | zero =>
                simp only [List.getElem?_cons_zero, Option.some.injEq] at hr'
                subst hr'
                rw [hm] at hm'
                rw [Option.some.inj hm']
            | succ i' =>
                have h0 := hearly 0 (Nat.succ_pos i') r (by simp)
                rw [hm] at h0
                exact absurd h0 (by simp)
      | none =>
          simp only [handle, hm]
          constructor
          · intro h
            obtain ⟨⟨i', b'⟩, hres, heq⟩ := Option.map_eq_some'.mp h
            have hi : i' + 1 = i := congrArg Prod.fst heq
            have hb : b' = binds := congrArg Prod.snd heq
            subst hb
            obtain rfl : i = i' + 1 := hi.symm
            obtain ⟨⟨r', hr', hm'⟩, hearly⟩ := (ih i' b').mp hres
            refine ⟨⟨r', by simpa using hr', hm'⟩, ?_⟩
            intro j hj r'' hr''
            cases j with
            | zero =>
                simp only [List.getElem?_cons_zero, Option.some.injEq] at hr''
                subst hr''
                exact hm
            | succ j' =>
                exact hearly j' (by omega) r'' (by simpa using hr'')
          · rintro ⟨⟨r', hr', hm'⟩, hearly⟩
            cases i with
            | zero =>
                simp only [List.getElem?_cons_zero, Option.some.injEq] at hr'
                subst hr'
                rw [hm] at hm'
                exact absurd hm' (by simp)
            | succ i' =>
                have hres : handle rs method path = some (i', binds) :=
                  (ih i' binds).mpr
                    ⟨⟨r', by simpa using hr', hm'⟩,
                     fun j hj r'' hr'' =>
                       hearly (j + 1) (by omega) r'' (by simpa using hr'')⟩
                rw [hres]
                rfl

/-- C1: `Handle` dispatches to the first route in registration order
whose method matches and whose compiled pattern matches the request
path, returning that route's named-capture bindings as the `Params`
mapping; and a route's method matches exactly when it equals the
request method, or it is the wildcard `*`, or it is `GET` and the
request is `HEAD`. -/
theorem C1_dispatch_first_match :
    (∀ (routes : List RouteRec) (method path : String) (i : Nat)
       (binds : List (String × String)),
       handle routes method path = some (i, binds) ↔
         ((∃ r, routes[i]? = some r ∧ r.Match method path = some binds) ∧
          ∀ j, j < i → ∀ r, routes[j]? = some r →
            r.Match method path = none)) ∧
    (∀ (r : RouteRec) (method : String),
       r.MatchMethod method = true ↔
         (r.method = "*" ∨ method = r.method ∨
          (method = "HEAD" ∧ r.method = "GET"))) := by
  constructor
  · intro routes method path i binds
    exact handle_eq_some_iff method path routes i binds
  · intro r method
    simp [RouteRec.MatchMethod, Bool.or_eq_true, Bool.and_eq_true, beq_iff_eq,
      or_assoc]

/-- Witness for C1 at a concrete route table: the GET route at index 1
is selected for a GET request, the POST route at index 0 having been
skipped. -/
theorem C1_dispatch_first_match_witness :
    handle [⟨"POST", "/user/:id", ""⟩, ⟨"GET", "/user/:id", ""⟩]
        "GET" "/user/42"
      = some (1, [("id", "42")]) := by
  refine (C1_dispatch_first_match.1 _ "GET" "/user/42" 1 _).mpr
    ⟨⟨⟨"GET", "/user/:id", ""⟩, by decide, by decide⟩, ?_⟩
  intro j hj r hr
  have hj0 : j = 0 := by omega
  subst hj0
  simp only [List.getElem?_cons_zero, Option.some.injEq] at hr
  subst hr
  decide

/-! ## Reverse routing (`router.URLFor`, `route.URLWith`) -/

/-- A value passed as a `URLFor` parameter (`interface{}` in Go): the
type switch accepts `int` and `string`, silently skips `nil`, and
panics on anything else. -/
inductive PVal where
  | pint (n : Int)
  | pstr (s : String)
  | pnil
  | pother
deriving DecidableEq, Repr

/-- The string produced for one accepted parameter (`strconv.FormatInt`
for `int`, identity for `string`), `none` for the skipped `nil`
case and for the rejected case. -/
def pvalStr : PVal → Option String
  | .pint n => some (toString n)
  | .pstr s => some s
  | _ => none

/-- The argument-coercion loop of `URLFor`: `int` is formatted in
decimal, `string` kept, `nil` skipped, anything else is the fatal
"Arguments passed to URLFor must be integers or strings" (panics are
modelled by `Except.error`). -/
def coerceArgs : List PVal → Except String (List String)
  | [] => .ok []
  | .pint n :: ps => (coerceArgs ps).map (fun args => toString n :: args)
  | .pstr s :: ps => (coerceArgs ps).map (fun args => s :: args)
  | .pnil :: ps => coerceArgs ps
  | .pother :: _ => .error "Arguments passed to URLFor must be integers or strings"

/-- `router.findRoute`: first route whose name equals the given name. -/
def findRoute (name : String) : List RouteRec → Option RouteRec
  | [] => none
  | r :: rs => if r.name == name then some r else findRoute name rs

/-- The replacement pass of `route.URLWith`: each `:name` occurrence
(the same `:[^/#?()\.\\]+` token as in compilation) is replaced by the
next positional argument when one is left, and otherwise kept literally;
the occurrence counter advances on every token.  Structural fuel as in
`compileAux`. -/
def urlWithAux : Nat → List Char → List String → Nat → List Char
  | 0, _, _, _ => []
  | _, [], _, _ => []
  | fuel + 1, ':' :: rest, args, i =>
      let run := rest.takeWhile nameOk
      if run.isEmpty then ':' :: urlWithAux fuel rest args i
      else
        (if i < args.length then (args.getD i "").data else ':' :: run)
          ++ urlWithAux fuel (rest.drop run.length) args (i + 1)
  | fuel + 1, c :: rest, args, i => c :: urlWithAux fuel rest args i

/-- `route.URLWith`: with a non-empty argument list substitute the
`:name` tokens positionally; with no arguments return the pattern
unchanged. -/
def RouteRec.URLWith (r : RouteRec) (args : List String) : String :=
  if 0 < args.length then
    String.mk (urlWithAux r.pattern.data.length r.pattern.data args 0)
  else r.pattern

/-- `router.URLFor`: look up the route by name (fatal "route not found"
when absent), coerce the parameters, and substitute. -/
def URLFor (routes : List RouteRec) (name : String) (params : List PVal) :
    Except String String :=
  match findRoute name routes with
  | none => .error "route not found"
  | some r => (coerceArgs params).map r.URLWith

/-- C8 counterexample: a `nil` parameter is not "integer-like or
string-like", yet `URLFor` does not fail — the `nil` is silently
skipped (the type-switch default only panics for non-nil values) and
the parameter token is left literal. -/
theorem C8_nil_param_not_fatal :
    URLFor [⟨"GET", "/user/:id", "home"⟩] "home" [PVal.pnil]
      = Except.ok "/user/:id" := rfl

/-- C8 (amended): `URLFor` on an unknown route name fails fatally with
"route not found"; parameters are coerced left-to-right, `int` to its
decimal form and `string` to itself, while any other non-nil value is
the fatal "Arguments passed to URLFor must be integers or strings" and
`nil` values are silently skipped; named-parameter tokens are
substituted left-to-right with the coerced values in order, tokens
without a corresponding value staying literal — in particular a route
named "home" with pattern `/user/:id` reverse-called with `["7"]`
yields `/user/7`. -/
theorem C8_urlfor :
    (∀ (routes : List RouteRec) (name : String) (params : List PVal),
       findRoute name routes = none →
       URLFor routes name params = Except.error "route not found") ∧
    (∀ params : List PVal, PVal.pother ∉ params →
       coerceArgs params = Except.ok (params.filterMap pvalStr)) ∧
    (∀ params : List PVal, PVal.pother ∈ params →
       coerceArgs params
         = Except.error "Arguments passed to URLFor must be integers or strings") ∧
    (∀ r : RouteRec, r.URLWith [] = r.pattern) ∧
    (URLFor [⟨"GET", "/user/:id", "home"⟩] "home" [PVal.pstr "7"]
       = Except.ok "/user/7") ∧
    (RouteRec.URLWith ⟨"GET", "/a/:x/b/:y", ""⟩ ["1"] = "/a/1/b/:y") ∧
    (RouteRec.URLWith ⟨"GET", "/a/:x/b/:y", ""⟩ ["1", "2"] = "/a/1/b/2") := by
  refine ⟨?_, ?_, ?_, ?_, rfl, by decide, by decide⟩
  · intro routes name params h
    simp [URLFor, h]
  · intro params h
    induction params with
    | nil => rfl
    | cons p ps ih =>
        have hps : PVal.pother ∉ ps := fun hm => h (List.mem_cons_of_mem p hm)
        cases p with
        | pint n =>
            simp [coerceArgs, ih hps, pvalStr, List.filterMap_cons, Except.map]
        | pstr s =>
            simp [coerceArgs, ih hps, pvalStr, List.filterMap_cons, Except.map]
        | pnil =>
            simp [coerceArgs, ih hps, pvalStr, List.filterMap_cons, Except.map]
        | pother => exact absurd (List.mem_cons_self _ _) h
  · intro params h
    induction params with
    | nil => simp at h
    | cons p ps ih =>
        cases p with
        | pother => rfl
        | pint n =>
            have : PVal.pother ∈ ps := by simpa using h
            simp [coerceArgs, ih this, Except.map]
        | pstr s =>
            have : PVal.pother ∈ ps := by simpa using h
            simp [coerceArgs, ih this, Except.map]
        | pnil =>
            have : PVal.pother ∈ ps := by simpa using h
            simp [coerceArgs, ih this]
  · intro r
    simp [RouteRec.URLWith]

/-- Witness for C8 at concrete inputs. -/
theorem C8_urlfor_witness :
    URLFor [] "missing" [] = Except.error "route not found" ∧
    coerceArgs [PVal.pint 7, PVal.pnil, PVal.pstr "x"]
      = Except.ok ([PVal.pint 7, PVal.pnil, PVal.pstr "x"].filterMap pvalStr) :=
  ⟨C8_urlfor.1 [] "missing" [] rfl,
   C8_urlfor.2.1 [PVal.pint 7, PVal.pnil, PVal.pstr "x"] (by decide)⟩

/-! ## Route grouping (`router.Group`, `router.addRoute`)

Handlers are opaque values of a type parameter `H`.  A registration
program is a tree of `route`/`group` declarations; `Group` pushes
`{prefix, middleware}` onto the group stack, runs the body, and pops
(`r.groups = r.groups[:len(r.groups)-1]`), and `addRoute` concatenates
the prefixes and middleware of every active group, outermost first,
ahead of the route's own pattern and handlers. -/

/-- A registered route including its handler chain. -/
structure RtRec (H : Type) where
  method : String
  pattern : String
  handlers : List H
deriving DecidableEq, Repr

/-- Router registration state: the route table and the active group
stack (`router.routes`, `router.groups`). -/
structure RState (H : Type) where
  routes : List (RtRec H)
  groups : List (String × List H)
deriving DecidableEq, Repr

/-- The concatenated pattern of the active groups, outermost first. -/
def groupPat {H : Type} (gs : List (String × List H)) : String :=
  gs.foldl (fun acc g => acc ++ g.1) ""

/-- The concatenated middleware of the active groups, outermost
first. -/
def groupMW {H : Type} (gs : List (String × List H)) : List H :=
  gs.foldl (fun acc g => acc ++ g.2) []

/-- `router.addRoute`: when groups are active, prepend their
concatenated prefixes to the pattern and their concatenated middleware
to the handler chain; append the route to the table. -/
def addRoute {H : Type} (method pattern : String) (handlers : List H)
    (st : RState H) : RState H :=
  if 0 < st.groups.length then
    { st with routes := st.routes
        ++ [⟨method, groupPat st.groups ++ pattern,
             groupMW st.groups ++ handlers⟩] }
  else
    { st with routes := st.routes ++ [⟨method, pattern, handlers⟩] }

/-- A registration program: route declarations and nested groups. -/
inductive Reg (H : Type) where
  | route (method pattern : String) (handlers : List H)
  | group (pattern : String) (body : List (Reg H)) (mws : List H)

mutual

/-- Run one registration (`addRoute`, or `Group` = push, run body,
pop). -/
def runReg {H : Type} : Reg H → RState H → RState H
  | .route m p hs, st => addRoute m p hs st
  | .group p body mws, st =>
      let st1 : RState H := { st with groups := st.groups ++ [(p, mws)] }
      let st2 := runRegs body st1
      { st2 with groups := st2.groups.dropLast }

/-- Run a list of registrations in order. -/
def runRegs {H : Type} : List (Reg H) → RState H → RState H
  | [], st => st
  | r :: rs, st => runRegs rs (runReg r st)

end

theorem empty_append_str (s : String) : "" ++ s = s := by
  cases s
  rfl

mutual

/-- One registration never changes the group stack: `Group` pops
exactly the entry it pushed. -/
theorem runReg_groups {H : Type} (r : Reg H) (st : RState H) :
    (runReg r st).groups = st.groups := by
  cases r with
  | route m p hs =>
      simp only [runReg, addRoute]
      split <;> rfl
  | group p body mws =>
      simp only [runReg]
      rw [runRegs_groups body _]
      simp

/-- A registration list never changes the group stack. -/
theorem runRegs_groups {H : Type} (rs : List (Reg H)) (st : RState H) :
    (runRegs rs st).groups = st.groups := by
  cases rs with
  | nil => rfl
  | cons r rs =>
      simp only [runRegs]
      rw [runRegs_groups rs _, runReg_groups r st]

end

/-- C9: a route registered inside nested groups receives the
concatenation of every active group's prefix, outermost first, followed
by its own pattern, and every active group's middleware outer-to-inner
followed by its own handlers; the group stack is restored after every
`Group` call (also for recursively nested groups), so a route
registered after a group gets none of the group's prefix or
middleware. -/
theorem C9_grouping :
    (∀ (H : Type) (st : RState H) (m p : String) (hs : List H),
       runReg (Reg.route m p hs) st
         = { st with routes := st.routes
             ++ [⟨m, groupPat st.groups ++ p, groupMW st.groups ++ hs⟩] }) ∧
    (∀ (H : Type) (rs : List (Reg H)) (st : RState H),
       (runRegs rs st).groups = st.groups) ∧
    (∀ (H : Type) (p1 p2 m q : String) (mws1 mws2 hs : List H)
       (routes0 : List (RtRec H)),
       (runRegs [Reg.group p1 [Reg.group p2 [Reg.route m q hs] mws2] mws1]
           ⟨routes0, []⟩).routes
         = routes0 ++ [⟨m, p1 ++ (p2 ++ q), mws1 ++ (mws2 ++ hs)⟩]) ∧
    (∀ (H : Type) (p m q : String) (body : List (Reg H)) (mws hs : List H)
       (routes0 : List (RtRec H)),
       (runRegs [Reg.group p body mws, Reg.route m q hs]
           ⟨routes0, []⟩).routes
         = (runRegs [Reg.group p body mws] ⟨routes0, []⟩).routes
             ++ [⟨m, q, hs⟩]) := by
  have haddR : ∀ (H : Type) (st : RState H) (m p : String) (hs : List H),
      runReg (Reg.route m p hs) st
        = { st with routes := st.routes
            ++ [⟨m, groupPat st.groups ++ p, groupMW st.groups ++ hs⟩] } := by
    intro H st m p hs
    by_cases hg : 0 < st.groups.length
    · simp [runReg, addRoute, hg]
    · have h0 : st.groups = [] := by
        cases hgs : st.groups with
        | nil => rfl
        | cons a l => rw [hgs] at hg; simp at hg
      simp [runReg, addRoute, hg, h0, groupPat, groupMW, empty_append_str]
  refine ⟨haddR, fun H => runRegs_groups, ?_, ?_⟩
  · intro H p1 p2 m q mws1 mws2 hs routes0
    simp only [runRegs, runReg, haddR]
    simp [addRoute, groupPat, groupMW, empty_append_str, String.append_assoc]
  · intro H p m q body mws hs routes0
    have hg : (runReg (Reg.group p body mws) ⟨routes0, []⟩).groups = [] :=
      runReg_groups (Reg.group p body mws) ⟨routes0, []⟩
    simp only [runRegs]
    rw [haddR]
    simp [groupPat, groupMW, hg, empty_append_str]

/-! ## Execution pipelines (`context` in martini.go, `routeContext` in
router.go)

A handler is modelled by its interaction with the pipeline: an effect
on the response wrapper before any `Next` call (`pre`), whether it
calls `Next` (`callNext`), an effect after the `Next` call returns
(`post`), and the reflect values it returns (`ret`).  `Invoke`-ing the
handler runs `pre`, then — if `callNext` — re-enters the run loop with
the cursor advanced, then runs `post` and yields `ret`.  Pipeline
states carry the cursor, the response wrapper, and a log of events:
`inv i` when the handler at cursor `i` is invoked, `retc i` when that
handler's return values are passed to the registered `ReturnHandler`.
The run loops take structural fuel; every loop iteration and `Next`
re-entry consumes one unit, so any fuel larger than the handler count
bounds a terminating execution, and the safety claims are proved for
every fuel value. -/

inductive Ev where
  | inv (i : Nat)
  | retc (i : Nat)
deriving DecidableEq, Repr

/-- A pipeline handler (see the module comment). -/
structure GH where
  pre : RespW → RespW
  callNext : Bool
  post : RespW → RespW
  ret : List RVal

instance : Inhabited GH := ⟨⟨id, false, id, []⟩⟩

/-- A pipeline handler with its return values dropped. -/
def clearRet (h : GH) : GH := { h with ret := [] }

/-- Pipeline state: cursor, response wrapper, event log. -/
structure PState where
  index : Nat
  rw : RespW
  log : List Ev

/-- `context.run` (martini.go): while the cursor is at most the handler
count, invoke the handler at the cursor (the terminal action once the
cursor passes the list); increment the cursor; stop when the response
has been written.  The invoked handler's return values are discarded
(`_, err := c.Invoke(c.handler())`).  A handler calling `Next`
re-enters this loop with the cursor advanced (`c.index += 1; c.run()`)
and resumes when it returns. -/
def ctxRun (hs : List GH) (act : GH) : Nat → PState → PState
  | 0, s => s
  | fuel + 1, s =>
    if s.index ≤ hs.length then
      let h := hs.getD s.index act
      let s1 : PState :=
        { s with rw := h.pre s.rw, log := s.log ++ [Ev.inv s.index] }
      let s2 :=
        if h.callNext then ctxRun hs act fuel { s1 with index := s1.index + 1 }
        else s1
      let s3 : PState := { s2 with rw := h.post s2.rw }
      let s4 : PState := { s3 with index := s3.index + 1 }
      if s4.rw.Written then s4 else ctxRun hs act fuel s4
    else s

/-- `routeContext.run` (router.go): while the cursor is strictly below
the handler count, invoke the handler at the cursor; increment the
cursor; if the handler returned values, pass them to the registered
`ReturnHandler` service (`interp`); stop when the response has been
written. -/
def routeRun (hs : List GH) (interp : RespW → List RVal → RespW) :
    Nat → PState → PState
  | 0, s => s
  | fuel + 1, s =>
    if s.index < hs.length then
      let h := hs.getD s.index default
      let s1 : PState :=
        { s with rw := h.pre s.rw, log := s.log ++ [Ev.inv s.index] }
      let s2 :=
        if h.callNext then
          routeRun hs interp fuel { s1 with index := s1.index + 1 }
        else s1
      let s3 : PState := { s2 with rw := h.post s2.rw }
      let s4 : PState := { s3 with index := s3.index + 1 }
      let s5 : PState :=
        if 0 < h.ret.length then
          { s4 with rw := interp s4.rw h.ret, log := s4.log ++ [Ev.retc s.index] }
        else s4
      if s5.rw.Written then s5 else routeRun hs interp fuel s5
    else s

/-- Modelled from the spec: §4.3's run loop for the route pipeline with
handlers that do not call `Next` — invoke each handler in order, pass
its return values (if any) to the Return-Value Interpreter, and stop as
soon as the response reports written.  Returns the event trace and the
final wrapper. -/
def specRouteRun (interp : RespW → List RVal → RespW) :
    List GH → Nat → RespW → List Ev × RespW
  | [], _, rw => ([], rw)
  | h :: hs, i, rw =>
      let rw1 := h.post (h.pre rw)
      let p : List Ev × RespW :=
        if 0 < h.ret.length then ([Ev.inv i, Ev.retc i], interp rw1 h.ret)
        else ([Ev.inv i], rw1)
      if p.2.Written then p
      else
        let q := specRouteRun interp hs (i + 1) p.2
        (p.1 ++ q.1, q.2)

/-- A middleware that writes the response and then calls `Next`. -/
def writeThenNext : GH := ⟨fun rw => rw.writeHeader 200, true, id, []⟩

/-- C3 counterexample: the middleware at cursor 0 writes the response
(status 200, so the wrapper reports written) and then calls `Next`;
the handler at cursor 1 is nonetheless invoked, because `Next`
re-enters the run loop without a written-check before the invocation —
refuting "once the response wrapper reports written … no handler at a
later cursor index in that pipeline is invoked, … including when it
writes and then calls Next". -/
theorem C3_write_then_next_invokes_later :
    (writeThenNext.pre freshRW).Written = true ∧
    writeThenNext.callNext = true ∧
    (ctxRun [writeThenNext, default] default 10 ⟨0, freshRW, []⟩).log
      = [Ev.inv 0, Ev.inv 1] := ⟨rfl, rfl, rfl⟩

/-- C3 (amended): the run loops check `Written()` after each handler
invocation returns: a handler that leaves the response written and does
not call `Next` is the last handler its run loop invokes, in both the
global pipeline (`context.run`) and the nested route pipeline
(`routeContext.run`).  The written-check does not guard the invocation
itself, so a middleware that writes and then calls `Next` still causes
later handlers to run (see the counterexample). -/
theorem C3_written_stops_loop :
    (∀ (hs : List GH) (act : GH) (fuel : Nat) (s : PState),
       0 < fuel → s.index ≤ hs.length →
       (hs.getD s.index act).callNext = false →
       ((hs.getD s.index act).post
         ((hs.getD s.index act).pre s.rw)).Written = true →
       (ctxRun hs act fuel s).log = s.log ++ [Ev.inv s.index]) ∧
    (∀ (hs : List GH) (interp : RespW → List RVal → RespW) (fuel : Nat)
       (s : PState),
       0 < fuel → s.index < hs.length →
       (hs.getD s.index default).callNext = false →
       (hs.getD s.index default).ret = [] →
       ((hs.getD s.index default).post
         ((hs.getD s.index default).pre s.rw)).Written = true →
       (routeRun hs interp fuel s).log = s.log ++ [Ev.inv s.index]) := by
  constructor
  · intro hs act fuel s hf hix hnext hw
    obtain ⟨f, rfl⟩ : ∃ f, fuel = f + 1 := ⟨fuel - 1, by omega⟩
    revert hnext hw
    generalize hh : hs.getD s.index act = h
    intro hnext hw
    simp only [ctxRun, hh, if_pos hix]
    simp [hnext, hw]
  · intro hs interp fuel s hf hix hnext hret hw
    obtain ⟨f, rfl⟩ : ∃ f, fuel = f + 1 := ⟨fuel - 1, by omega⟩
    revert hnext hret hw
    generalize hh : hs.getD s.index default = h
    intro hnext hret hw
    simp only [routeRun, hh, if_pos hix]
    simp [hnext, hret, hw]

/-- A middleware that writes the response and returns without calling
`Next`. -/
def writeNoNext : GH := ⟨fun rw => rw.writeHeader 500, false, id, []⟩

/-- Witness for C3 at a concrete input: the writing middleware at
cursor 0 short-circuits both pipelines. -/
theorem C3_written_stops_loop_witness :
    (ctxRun [writeNoNext, default] default 5 ⟨0, freshRW, []⟩).log
      = [] ++ [Ev.inv 0] ∧
    (routeRun [writeNoNext, default] defaultReturnHandler 5
        ⟨0, freshRW, []⟩).log
      = [] ++ [Ev.inv 0] :=
  ⟨C3_written_stops_loop.1 [writeNoNext, default] default 5 ⟨0, freshRW, []⟩
      (by decide) (by decide) rfl rfl,
   C3_written_stops_loop.2 [writeNoNext, default] defaultReturnHandler 5
      ⟨0, freshRW, []⟩ (by decide) (by decide) rfl rfl rfl⟩

theorem getD_append_len {α : Type} (l1 l2 : List α) (a d : α) :
    (l1 ++ a :: l2).getD l1.length d = a := by
  induction l1 with
  | nil => rfl
  | cons x xs ih => exact ih

theorem getD_map_f {α β : Type} (f : α → β) :
    ∀ (l : List α) (n : Nat) (d : α),
      (l.map f).getD n (f d) = f (l.getD n d) := by
  intro l
  induction l with
  | nil => intro n d; cases n <;> rfl
  | cons a t ih =>
      intro n d
      cases n with
      | zero => rfl
      | succ n => exact ih n d

/-- The global run loop does not depend on the handlers' return values:
two handler lists agreeing on `pre`, `callNext` and `post` produce
identical runs. -/
theorem ctxRun_ret_irrelevant :
    ∀ (fuel : Nat) (hs hs2 : List GH) (act act2 : GH) (s : PState),
      hs.length = hs2.length →
      (∀ i, (hs.getD i act).pre = (hs2.getD i act2).pre ∧
            (hs.getD i act).callNext = (hs2.getD i act2).callNext ∧
            (hs.getD i act).post = (hs2.getD i act2).post) →
      ctxRun hs act fuel s = ctxRun hs2 act2 fuel s := by
  intro fuel
  induction fuel with
  | zero => intro hs hs2 act act2 s _ _; rfl
  | succ f ih =>
      intro hs hs2 act act2 s hlen hfield
      obtain ⟨hpre, hcn, hpost⟩ := hfield s.index
      have irec : ∀ s1, ctxRun hs act f s1 = ctxRun hs2 act2 f s1 :=
        fun s1 => ih hs hs2 act act2 s1 hlen hfield
      simp only [ctxRun, hlen, hpre, hcn, hpost, irec]

/-- The route pipeline refines the spec's run loop: starting at cursor
`pre.length` with the handlers `pre ++ rest`, and with handlers that do
not call `Next`, the trace and final wrapper are those of
`specRouteRun` on `rest`. -/
theorem routeRun_spec_aux (interp : RespW → List RVal → RespW) :
    ∀ (rest pre : List GH) (fuel : Nat) (rw : RespW) (log : List Ev),
      (∀ h ∈ rest, h.callNext = false) → rest.length < fuel →
      (routeRun (pre ++ rest) interp fuel ⟨pre.length, rw, log⟩).log
        = log ++ (specRouteRun interp rest pre.length rw).1 ∧
      (routeRun (pre ++ rest) interp fuel ⟨pre.length, rw, log⟩).rw
        = (specRouteRun interp rest pre.length rw).2 := by
  intro rest
  induction rest with
  | nil =>
      intro pre fuel rw log _ hfuel
      obtain ⟨f, rfl⟩ : ∃ f, fuel = f + 1 := ⟨fuel - 1, by omega⟩
      simp [routeRun, specRouteRun]
  | cons h t ih =>
      intro pre fuel rw log hall hfuel
      obtain ⟨f, rfl⟩ : ∃ f, fuel = f + 1 := ⟨fuel - 1, by omega⟩
      have hcn : h.callNext = false := hall h (List.mem_cons_self h t)
      have hlt : pre.length < (pre ++ h :: t).length := by simp
      have hget : (pre ++ h :: t).getD pre.length default = h :=
        getD_append_len pre t h default
      have hallt : ∀ g ∈ t, g.callNext = false :=
        fun g hg => hall g (List.mem_cons_of_mem h hg)
      have hft : t.length < f := by
        simp only [List.length_cons] at hfuel
        omega
      simp only [routeRun, if_pos hlt, hget, hcn, Bool.false_eq_true, if_false]
      by_cases hr : 0 < h.ret.length
      · simp only [hr, if_true]
        cases hwr : (interp (h.post (h.pre rw)) h.ret).Written
        · have ih' := ih (pre ++ [h]) f (interp (h.post (h.pre rw)) h.ret)
            ((log ++ [Ev.inv pre.length]) ++ [Ev.retc pre.length]) hallt hft
          simp only [List.append_assoc, List.singleton_append,
            List.cons_append, List.nil_append, List.length_append,
            List.length_cons, List.length_nil, Nat.zero_add] at ih'
          simp only [specRouteRun, hr, if_true, hwr, Bool.false_eq_true,
            if_false]
          simp only [List.append_assoc, List.singleton_append,
            List.cons_append, List.nil_append]
          exact ih'
        · simp only [specRouteRun, hr, if_true, hwr, if_true]
          refine ⟨?_, ?_⟩
          · simp
          · first
            | rfl
            | trivial
      · simp only [hr, if_false]
        cases hwr : (h.post (h.pre rw)).Written
        · have ih' := ih (pre ++ [h]) f (h.post (h.pre rw))
            (log ++ [Ev.inv pre.length]) hallt hft
          simp only [List.append_assoc, List.singleton_append,
            List.cons_append, List.nil_append, List.length_append,
            List.length_cons, List.length_nil, Nat.zero_add] at ih'
          simp only [specRouteRun, hr, if_false, hwr, Bool.false_eq_true,
            if_false]
          simp only [List.append_assoc, List.singleton_append,
            List.cons_append, List.nil_append]
          exact ih'
        · simp only [specRouteRun, hr, if_false, hwr, if_true]
          refine ⟨?_, ?_⟩
          · simp
          · first
            | rfl
            | trivial

/-- C4 (amended): only the nested route pipeline passes a handler's
return values to the registered `ReturnHandler` — for `Next`-free
handler chains `routeContext.run` produces exactly the spec's
invoke/pass-returns/advance trace; the global pipeline's run loop
discards return values entirely: its behaviour is unchanged when every
handler's return values are dropped. -/
theorem C4_return_values :
    (∀ (hs : List GH) (interp : RespW → List RVal → RespW) (rw : RespW)
       (fuel : Nat),
       (∀ h ∈ hs, h.callNext = false) → hs.length < fuel →
       (routeRun hs interp fuel ⟨0, rw, []⟩).log
         = (specRouteRun interp hs 0 rw).1 ∧
       (routeRun hs interp fuel ⟨0, rw, []⟩).rw
         = (specRouteRun interp hs 0 rw).2) ∧
    (∀ (fuel : Nat) (hs : List GH) (act : GH) (s : PState),
       ctxRun hs act fuel s
         = ctxRun (hs.map clearRet) (clearRet act) fuel s) := by
  constructor
  · intro hs interp rw fuel hall hfuel
    have haux := routeRun_spec_aux interp hs [] fuel rw [] hall hfuel
    simpa using haux
  · intro fuel hs act s
    refine ctxRun_ret_irrelevant fuel hs (hs.map clearRet) act (clearRet act) s
      (by simp) ?_
    intro i
    rw [getD_map_f clearRet hs i act]
    exact ⟨rfl, rfl, rfl⟩

/-- A handler that returns a value and does not write or call `Next`. -/
def retHandler : GH := ⟨id, false, id, [RVal.str "hi"]⟩

/-- C4 counterexample: in the global pipeline a handler returns a value
(`ret ≠ []`), and the pipeline advances past it (the terminal action at
cursor 1 is invoked), yet the return values are never passed to the
`ReturnHandler`: no `retc` event occurs and nothing is written to the
response — `context.run` reads `_, err := c.Invoke(...)`, discarding the
values, contradicting the claim for the global pipeline. -/
theorem C4_global_pipeline_discards_returns :
    retHandler.ret ≠ [] ∧
    (ctxRun [retHandler] default 10 ⟨0, freshRW, []⟩).log
      = [Ev.inv 0, Ev.inv 1] ∧
    Ev.retc 0 ∉ (ctxRun [retHandler] default 10 ⟨0, freshRW, []⟩).log ∧
    (ctxRun [retHandler] default 10 ⟨0, freshRW, []⟩).rw.status = 0 := by
  refine ⟨by decide, rfl, by decide, rfl⟩

/-- Witness for C4 at a concrete input. -/
theorem C4_return_values_witness :
    (routeRun [retHandler] defaultReturnHandler 2 ⟨0, freshRW, []⟩).log
      = (specRouteRun defaultReturnHandler [retHandler] 0 freshRW).1 ∧
    (routeRun [retHandler] defaultReturnHandler 2 ⟨0, freshRW, []⟩).rw
      = (specRouteRun defaultReturnHandler [retHandler] 0 freshRW).2 :=
  C4_return_values.1 [retHandler] defaultReturnHandler freshRW 2
    (by
      intro h hh
      rw [List.mem_singleton] at hh
      subst hh
      rfl)
    (by decide)

end Martini
